import Mathlib

/-!
Shallow embedding of the beatmap classification and recommendation
reconciliation workflow of the osu_Kon_bot repository
(test1/plugins/t1/recommend.py and test1/plugins/t1/admin_tool.py).

Modelling conventions:
* probabilities are rationals;
* python dicts of label/probability entries are association lists in
  insertion order (keys unique in any real dict, not assumed unless needed);
* the database tables are explicit state: BeatmapAnalysis is a map keyed by
  bid (its primary key), PendingBeatmapReviews and Recommendations are row
  lists;
* timestamps and row ids are naturals;
* the external oracle call result is an Option: none models a failed call
  (get_oracle_classification returned a non-dict), some d a returned dict;
* review reasons and advisory chat messages are closed inductive types,
  one constructor per distinct string produced by the source (the
  user/oracle mismatch reason interpolates both types, so its constructor
  carries them);
* database commits are all-or-nothing: the admin override takes a Boolean
  marking a database error anywhere in its transaction, in which case the
  code rolls back and no effect is visible.
-/

namespace OsuKonBot

/-- TYPE_ALIASES from recommend.py lines 18-24, in source order. -/
def TYPE_ALIASES : List (String × String) :=
  [("串", "stream"), ("stream", "stream"),
   ("跳", "jump"), ("jump", "jump"), ("aim", "jump"),
   ("强双", "alt"), ("alt", "alt"),
   ("科技", "tech"), ("tech", "tech"),
   ("其他", "others"), ("其它", "others"), ("others", "others")]

/-- VALID_TYPES = set(TYPE_ALIASES.values()); only membership is used. -/
def VALID_TYPES : List String := TYPE_ALIASES.map Prod.snd

/-- TYPE_ALIASES.get(k, k): alias-table lookup with the key as default. -/
def aliasGet (k : String) : String :=
  match TYPE_ALIASES.find? (fun p => p.1 == k) with
  | some p => p.2
  | none => k

/-- TYPE_ALIASES.get(key.lower(), key.lower()) from recommend.py line 125. -/
def normalizeKey (k : String) : String := aliasGet k.toLower

/-- dict get on an association list (first match; dict keys are unique). -/
def lookupProb : List (String × ℚ) → String → Option ℚ
  | [], _ => none
  | kv :: rest, k => if kv.1 = k then some kv.2 else lookupProb rest k

/-- normalized_probs[nk] = normalized_probs.get(nk, 0) + prob: update the
entry in place when the key is present, append it otherwise. -/
def addProb : List (String × ℚ) → String → ℚ → List (String × ℚ)
  | [], k, v => [(k, v)]
  | kv :: rest, k, v =>
      if kv.1 = k then (kv.1, kv.2 + v) :: rest else kv :: addProb rest k v

/-- The normalization loop of recommend.py lines 123-127, folding the raw
entries in order into the accumulated normalized dict. -/
def normalizeInto : List (String × ℚ) → List (String × ℚ) → List (String × ℚ)
  | m, [] => m
  | m, kv :: rest =>
      if normalizeKey kv.1 ∈ VALID_TYPES then
        normalizeInto (addProb m (normalizeKey kv.1) kv.2) rest
      else normalizeInto m rest

/-- The normalized probability dict built from the raw oracle dict. -/
def normalizeProbs (raw : List (String × ℚ)) : List (String × ℚ) :=
  normalizeInto [] raw

/-- The selection loop of recommend.py lines 132-134: the first entry with
probability strictly above 0.5, in dict iteration order. -/
def firstAbove : List (String × ℚ) → Option String
  | [] => none
  | kv :: rest => if (1 : ℚ) / 2 < kv.2 then some kv.1 else firstAbove rest

/-- get_oracle_analysis_results (recommend.py lines 111-136), with the raw
oracle response passed in: none when the call failed (non-dict result),
some raw when the service returned a dict. Returns the pair of the raw
dict and the derived type string. -/
def get_oracle_analysis_results (rawProbs : Option (List (String × ℚ))) :
    Option (List (String × ℚ)) × String :=
  match rawProbs with
  | none => (none, "others")
  | some raw =>
    if raw.isEmpty then (some raw, "others")
    else
      let np := normalizeProbs raw
      if np.isEmpty then (some raw, "others")
      else
        match firstAbove np with
        | some t => (some raw, t)
        | none => (some raw, "others")

/-- One BeatmapAnalysis row (columns of the table as used by the source). -/
structure AnalysisRow where
  determined_b_type : String
  is_auto_typed : Bool
  stream_prob : Option ℚ
  jump_prob : Option ℚ
  alt_prob : Option ℚ
  tech_prob : Option ℚ
  oracle_last_run_at : Option Nat
  manual_review_at : Option Nat
  reviewed_by_admin_id : Option String
deriving DecidableEq, Repr

/-- The review reason strings produced by the source, as a closed type.
userOracleMismatch models the interpolated string of recommend.py line 350
and therefore carries the user and oracle types it mentions. -/
inductive Reason where
  | userOracleMismatch (userType oracleType : String)
  | oracleFailedUserSpecifiedType
  | oracleAmbiguousOrFailedNoUserType
  | oracleAmbiguousResult
deriving DecidableEq, Repr

/-- One PendingBeatmapReviews row. -/
structure PendingRow where
  bid : Nat
  reason_for_pending : Reason
  triggered_by_recommendation_id : Option Nat
  added_to_queue_at : Nat
deriving DecidableEq, Repr

/-- One Recommendations row. -/
structure RecommendationRow where
  qqid : Nat
  bid : Nat
  osu_username_at_recommend_time : Option String
  user_requested_type : Option String
  actual_recommend_type : String
  recommendation_description : String
  recommended_at : Nat
deriving DecidableEq, Repr

/-- The advisory chat messages appended to additional_messages by
handle_recommend_command, one constructor per distinct source string. -/
inductive Advisory where
  | adminFixed (dbType userType : String)
  | youSetType (userType : String)
  | oracleDisagrees (oracleType : String)
  | oracleFailedUserSpecified
  | oracleFailedProvisionalOthers
deriving DecidableEq, Repr

/-- The database state relevant to the workflow: the BeatmapAnalysis table
keyed by bid, the PendingBeatmapReviews table and the append-only
Recommendations table. -/
structure DBState where
  analysis : Nat → Option AnalysisRow
  pending : List PendingRow
  recommendations : List RecommendationRow

/-- store_beatmap_analysis (recommend.py lines 138-170): INSERT ... ON
DUPLICATE KEY UPDATE where determined_b_type and is_auto_typed are
rewritten only when the existing row has is_auto_typed = 1, while the four
probability columns and oracle_last_run_at are always rewritten. The
timestamp parameter is stored only when probs is not None. -/
def store_beatmap_analysis (analysis : Nat → Option AnalysisRow) (bid : Nat)
    (probs : Option (List (String × ℚ))) (determined_type : String)
    (is_auto : Bool) (now : Nat) : Nat → Option AnalysisRow :=
  let p := probs.getD []
  let ts : Option Nat := if probs.isSome then some now else none
  Function.update analysis bid (some (
    match analysis bid with
    | none =>
      { determined_b_type := determined_type
        is_auto_typed := is_auto
        stream_prob := lookupProb p "stream"
        jump_prob := lookupProb p "jump"
        alt_prob := lookupProb p "alt"
        tech_prob := lookupProb p "tech"
        oracle_last_run_at := ts
        manual_review_at := none
        reviewed_by_admin_id := none }
    | some row =>
      { determined_b_type :=
          if row.is_auto_typed then determined_type else row.determined_b_type
        is_auto_typed := if row.is_auto_typed then is_auto else row.is_auto_typed
        stream_prob := lookupProb p "stream"
        jump_prob := lookupProb p "jump"
        alt_prob := lookupProb p "alt"
        tech_prob := lookupProb p "tech"
        oracle_last_run_at := ts
        manual_review_at := row.manual_review_at
        reviewed_by_admin_id := row.reviewed_by_admin_id }))

/-- store_beatmap_analysis_probabilities_only (recommend.py lines 172-190):
UPDATE of the probability columns and oracle_last_run_at guarded by
WHERE bid = %s AND is_auto_typed = 0; no row means no effect. -/
def store_beatmap_analysis_probabilities_only
    (analysis : Nat → Option AnalysisRow) (bid : Nat)
    (probs : List (String × ℚ)) (now : Nat) : Nat → Option AnalysisRow :=
  match analysis bid with
  | some row =>
      if row.is_auto_typed = false then
        Function.update analysis bid (some
          { row with
            stream_prob := lookupProb probs "stream"
            jump_prob := lookupProb probs "jump"
            alt_prob := lookupProb probs "alt"
            tech_prob := lookupProb probs "tech"
            oracle_last_run_at := some now })
      else analysis
  | none => analysis

/-- The ON DUPLICATE KEY overwrite of add_to_pending_review as a row map:
replace the non-key columns of the row for bid, keep every other row. -/
def replRow (bid : Nat) (r : Reason) (rid : Option Nat) (t : Nat)
    (p : PendingRow) : PendingRow :=
  if p.bid = bid then
    { p with
      reason_for_pending := r
      triggered_by_recommendation_id := rid
      added_to_queue_at := t }
  else p

/-- add_to_pending_review (recommend.py lines 192-210): INSERT ... ON
DUPLICATE KEY UPDATE on the bid key — overwrite the non-key columns of the
existing row for bid if there is one, append a fresh row otherwise. -/
def add_to_pending_review (pending : List PendingRow) (bid : Nat)
    (reason : Reason) (recommendation_id : Option Nat) (now : Nat) :
    List PendingRow :=
  if pending.any (fun p => decide (p.bid = bid)) then
    pending.map (replRow bid reason recommendation_id now)
  else
    pending ++ [{ bid := bid, reason_for_pending := reason,
                  triggered_by_recommendation_id := recommendation_id,
                  added_to_queue_at := now }]

/-- update_beatmap_classification (admin_tool.py lines 46-76): check the
row exists (returning False without effect otherwise), set the new type,
clear is_auto_typed, record reviewer and timestamp, delete the bid from
PendingBeatmapReviews, and commit everything at once; dbError marks a
MySQLError anywhere in the transaction, which rolls back all of it. -/
def update_beatmap_classification (st : DBState) (bid : Nat)
    (new_type admin_id : String) (now : Nat) (dbError : Bool) :
    Bool × DBState :=
  if dbError then (false, st)
  else
    match st.analysis bid with
    | none => (false, st)
    | some row =>
      (true,
       { st with
         analysis := Function.update st.analysis bid (some
           { row with
             determined_b_type := new_type
             is_auto_typed := false
             manual_review_at := some now
             reviewed_by_admin_id := some admin_id })
         pending := st.pending.filter (fun p => decide (p.bid ≠ bid)) })

/-- The abort of handle_recommend_command when the official metadata fetch
for the target beatmap returns nothing (recommend.py lines 302-303). -/
inductive AbortReason where
  | metadataUnavailable
deriving DecidableEq, Repr

/-- The caller-visible outcome of one successful recommendation flow. -/
structure RecommendResult where
  finalCatalogType : String
  recommendationType : String
  advisories : List Advisory
  recommendationId : Nat
deriving DecidableEq, Repr

/-- The resolved decision of the branch on is_auto_typed (recommend.py
lines 314-362): final catalog type, recommendation type, advisory
messages, and the resulting analysis table and review queue. -/
structure ResolveOutcome where
  final_determined_b_type_for_db : String
  actual_recommend_type : String
  additional_messages : List Advisory
  analysis2 : Nat → Option AnalysisRow
  pending2 : List PendingRow

/-- The manually-typed branch (recommend.py lines 330-342): keep the
administrator type for the catalog, record the user type if any with a
mismatch advisory, and refresh probabilities only when the raw oracle dict
is not None. -/
def recommend_case_manual (analysis : Nat → Option AnalysisRow)
    (pending : List PendingRow) (row : AnalysisRow) (bid : Nat)
    (userType : Option String) (rawProbs : Option (List (String × ℚ)))
    (now : Nat) : ResolveOutcome :=
  { final_determined_b_type_for_db := row.determined_b_type
    actual_recommend_type :=
      match userType with
      | some ut => ut
      | none => row.determined_b_type
    additional_messages :=
      match userType with
      | some ut =>
          if ut ≠ row.determined_b_type then
            [Advisory.adminFixed row.determined_b_type ut]
          else []
      | none => []
    analysis2 :=
      match rawProbs with
      | some rp => store_beatmap_analysis_probabilities_only analysis bid rp now
      | none => analysis
    pending2 := pending }

/-- The advisory messages and review-queue effect of the auto branch
(recommend.py lines 344-361). The first guard embeds the source test
"oracle_determined_type and user_specified_type != oracle_determined_type"
(a string is truthy when nonempty); the "not raw_oracle_probabilities"
tests are true for both a failed call (None) and an empty dict. -/
def recommend_case_auto_review (pending : List PendingRow) (bid : Nat)
    (userType : Option String) (rawProbs : Option (List (String × ℚ)))
    (oracleType : String) (now : Nat) : List Advisory × List PendingRow :=
  let oracleEmpty : Bool :=
    match rawProbs with
    | none => true
    | some l => l.isEmpty
  match userType with
  | some ut =>
    if oracleType ≠ "" ∧ ut ≠ oracleType then
      ([Advisory.youSetType ut, Advisory.oracleDisagrees oracleType],
       add_to_pending_review pending bid
         (Reason.userOracleMismatch ut oracleType) none now)
    else if oracleEmpty then
      ([Advisory.youSetType ut, Advisory.oracleFailedUserSpecified],
       add_to_pending_review pending bid
         Reason.oracleFailedUserSpecifiedType none now)
    else ([Advisory.youSetType ut], pending)
  | none =>
    if oracleEmpty then
      ([Advisory.oracleFailedProvisionalOthers],
       add_to_pending_review pending bid
         Reason.oracleAmbiguousOrFailedNoUserType none now)
    else if oracleType = "others" then
      ([], add_to_pending_review pending bid Reason.oracleAmbiguousResult none now)
    else ([], pending)

/-- The auto branch (recommend.py lines 343-362): the user type when given,
the oracle type otherwise, becomes both the recommendation type and the
catalog type, and the analysis row is written through
store_beatmap_analysis with is_auto_typed = True. -/
def recommend_case_auto (analysis : Nat → Option AnalysisRow)
    (pending : List PendingRow) (bid : Nat) (userType : Option String)
    (rawProbs : Option (List (String × ℚ))) (oracleType : String)
    (now : Nat) : ResolveOutcome :=
  let recType :=
    match userType with
    | some ut => ut
    | none => oracleType
  let mp := recommend_case_auto_review pending bid userType rawProbs oracleType now
  { final_determined_b_type_for_db := recType
    actual_recommend_type := recType
    additional_messages := mp.1
    analysis2 := store_beatmap_analysis analysis bid rawProbs recType true now
    pending2 := mp.2 }

/-- handle_recommend_command (recommend.py lines 272-426) for a caller with
an existing binding and a resolved bid: fetch the oracle analysis, abort
with MetadataUnavailable when the official metadata fetch failed, branch
on is_auto_typed of the existing row (default auto when no row), then
append the Recommendations row and return the resolved outcome. The new
recommendation id is the next auto-increment value of the store. -/
def handle_recommend_command (st : DBState) (qqid : Nat)
    (osuUsername : Option String) (bid : Nat) (userType : Option String)
    (description : String) (metadataOk : Bool)
    (rawOracle : Option (List (String × ℚ))) (now : Nat) :
    Except AbortReason RecommendResult × DBState :=
  let ora := get_oracle_analysis_results rawOracle
  if metadataOk = false then (Except.error AbortReason.metadataUnavailable, st)
  else
    let oc :=
      match st.analysis bid with
      | some row =>
        if row.is_auto_typed = false then
          recommend_case_manual st.analysis st.pending row bid userType ora.1 now
        else
          recommend_case_auto st.analysis st.pending bid userType ora.1 ora.2 now
      | none =>
          recommend_case_auto st.analysis st.pending bid userType ora.1 ora.2 now
    let recId := st.recommendations.length + 1
    let recRow : RecommendationRow :=
      { qqid := qqid, bid := bid,
        osu_username_at_recommend_time := osuUsername,
        user_requested_type := userType,
        actual_recommend_type := oc.actual_recommend_type,
        recommendation_description := description,
        recommended_at := now }
    (Except.ok
      { finalCatalogType := oc.final_determined_b_type_for_db,
        recommendationType := oc.actual_recommend_type,
        advisories := oc.additional_messages,
        recommendationId := recId },
     { analysis := oc.analysis2, pending := oc.pending2,
       recommendations := st.recommendations ++ [recRow] })

/-- The inputs of one recommendation invocation, for reasoning about
sequences of invocations. -/
structure RecommendCall where
  qqid : Nat
  osuUsername : Option String
  bid : Nat
  userType : Option String
  description : String
  metadataOk : Bool
  rawOracle : Option (List (String × ℚ))
  now : Nat

/-- The state after one recommendation invocation. -/
def applyRecommend (st : DBState) (c : RecommendCall) : DBState :=
  (handle_recommend_command st c.qqid c.osuUsername c.bid c.userType
    c.description c.metadataOk c.rawOracle c.now).2

/-- The state after a sequence of recommendation invocations. -/
def runRecommends (st : DBState) (cs : List RecommendCall) : DBState :=
  cs.foldl applyRecommend st

instance {ε α : Type} [DecidableEq ε] [DecidableEq α] :
    DecidableEq (Except ε α) := fun a b =>
  match a, b with
  | .error e, .error f => decidable_of_iff (e = f) (by simp)
  | .error _, .ok _ => Decidable.isFalse (by simp)
  | .ok _, .error _ => Decidable.isFalse (by simp)
  | .ok a, .ok b => decidable_of_iff (a = b) (by simp)

/-! ### Basic facts about the oracle analysis -/

/-- get_oracle_analysis_results passes the raw oracle response through
unchanged as its first component. -/
theorem oracle_fst (x : Option (List (String × ℚ))) :
    (get_oracle_analysis_results x).1 = x := by
  match x with
  | none => rfl
  | some raw =>
    simp only [get_oracle_analysis_results]
    split
    · rfl
    · split
      · rfl
      · split <;> rfl

theorem firstAbove_none_of (l : List (String × ℚ))
    (h : ∀ kv ∈ l, kv.2 ≤ (1 : ℚ) / 2) : firstAbove l = none := by
  induction l with
  | nil => rfl
  | cons kv rest ih =>
    have hkv := h kv (List.mem_cons_self kv rest)
    simp only [firstAbove, if_neg (not_lt.mpr hkv)]
    exact ih fun kv2 h2 => h kv2 (List.mem_cons_of_mem kv h2)

theorem firstAbove_mem (l : List (String × ℚ)) (t : String)
    (h : firstAbove l = some t) : ∃ kv ∈ l, kv.1 = t ∧ (1 : ℚ) / 2 < kv.2 := by
  induction l with
  | nil => simp [firstAbove] at h
  | cons kv rest ih =>
    by_cases hgt : (1 : ℚ) / 2 < kv.2
    · refine ⟨kv, List.mem_cons_self kv rest, ?_, hgt⟩
      simp only [firstAbove, if_pos hgt] at h
      exact Option.some.inj h
    · simp only [firstAbove, if_neg hgt] at h
      obtain ⟨kv2, hmem, heq, hgt2⟩ := ih h
      exact ⟨kv2, List.mem_cons_of_mem kv hmem, heq, hgt2⟩

theorem firstAbove_of_unique (l : List (String × ℚ)) (kv : String × ℚ)
    (hmem : kv ∈ l) (hgt : (1 : ℚ) / 2 < kv.2)
    (huniq : ∀ kv2 ∈ l, kv2.1 ≠ kv.1 → kv2.2 ≤ (1 : ℚ) / 2) :
    firstAbove l = some kv.1 := by
  induction l with
  | nil => simp at hmem
  | cons hd rest ih =>
    by_cases hhd : (1 : ℚ) / 2 < hd.2
    · have : hd.1 = kv.1 := by
        by_contra hne
        exact absurd (huniq hd (List.mem_cons_self hd rest) hne) (not_le.mpr hhd)
      simp only [firstAbove, if_pos hhd, this]
    · have hkvne : kv ≠ hd := by
        intro heq
        exact hhd (heq ▸ hgt)
      have hmem2 : kv ∈ rest := by
        rcases List.mem_cons.mp hmem with h2 | h2
        · exact absurd h2 hkvne
        · exact h2
      simp only [firstAbove, if_neg hhd]
      exact ih hmem2 fun kv2 h2 => huniq kv2 (List.mem_cons_of_mem hd h2)

theorem firstAbove_isSome_of_mem (l : List (String × ℚ)) (kv : String × ℚ)
    (hmem : kv ∈ l) (hgt : (1 : ℚ) / 2 < kv.2) :
    ∃ t, firstAbove l = some t := by
  induction l with
  | nil => simp at hmem
  | cons hd rest ih =>
    by_cases hhd : (1 : ℚ) / 2 < hd.2
    · exact ⟨hd.1, by simp only [firstAbove, if_pos hhd]⟩
    · have hmem2 : kv ∈ rest := by
        rcases List.mem_cons.mp hmem with h2 | h2
        · exact absurd (h2 ▸ hgt) hhd
        · exact h2
      obtain ⟨t, ht⟩ := ih hmem2
      exact ⟨t, by simp only [firstAbove, if_neg hhd]; exact ht⟩

/-- The derived type of get_oracle_analysis_results on a returned dict, in
closed form. -/
theorem oracle_snd_eq (raw : List (String × ℚ)) :
    (get_oracle_analysis_results (some raw)).2 =
      if raw.isEmpty then "others"
      else if (normalizeProbs raw).isEmpty then "others"
      else (firstAbove (normalizeProbs raw)).getD "others" := by
  by_cases h1 : raw.isEmpty
  · simp [get_oracle_analysis_results, h1]
  · by_cases h2 : (normalizeProbs raw).isEmpty
    · simp [get_oracle_analysis_results, h1, h2]
    · simp only [get_oracle_analysis_results, h1, h2, Bool.false_eq_true,
        if_false]
      cases h3 : firstAbove (normalizeProbs raw) <;> simp [h3]

/-- C4. For every normalized probability mapping, the derived model type is
"others" whenever the mapping is empty or no entry strictly exceeds 1/2
(an entry exactly equal to 1/2 does not qualify); and whenever some entry
strictly exceeds 1/2 the derived type is one whose probability exceeds
1/2 — the unique such type when only one entry exceeds 1/2. -/
theorem modelType_threshold_spec (raw : List (String × ℚ)) :
    ((∀ kv ∈ normalizeProbs raw, kv.2 ≤ (1 : ℚ) / 2) →
       (get_oracle_analysis_results (some raw)).2 = "others") ∧
    (∀ kv ∈ normalizeProbs raw, (1 : ℚ) / 2 < kv.2 →
       (∃ kv2 ∈ normalizeProbs raw,
          kv2.1 = (get_oracle_analysis_results (some raw)).2 ∧
          (1 : ℚ) / 2 < kv2.2) ∧
       ((∀ kv2 ∈ normalizeProbs raw, kv2.1 ≠ kv.1 → kv2.2 ≤ (1 : ℚ) / 2) →
          (get_oracle_analysis_results (some raw)).2 = kv.1)) := by
  constructor
  · intro hall
    rw [oracle_snd_eq]
    by_cases h1 : raw.isEmpty
    · simp [h1]
    · by_cases h2 : (normalizeProbs raw).isEmpty
      · simp [h1, h2]
      · simp [h1, h2, firstAbove_none_of _ hall]
  · intro kv hmem hgt
    have hne : ¬ (normalizeProbs raw).isEmpty = true := by
      intro h
      rw [List.isEmpty_iff] at h
      rw [h] at hmem
      simp at hmem
    have hre : ¬ raw.isEmpty = true := by
      intro h
      rw [List.isEmpty_iff] at h
      subst h
      simp only [normalizeProbs, normalizeInto] at hmem
      simp at hmem
    obtain ⟨t, ht⟩ := firstAbove_isSome_of_mem _ kv hmem hgt
    constructor
    · obtain ⟨kv2, hmem2, heq2, hgt2⟩ := firstAbove_mem _ t ht
      refine ⟨kv2, hmem2, ?_, hgt2⟩
      rw [oracle_snd_eq]
      simp [hre, hne, ht, heq2]
    · intro huniq
      have h4 := firstAbove_of_unique _ kv hmem hgt huniq
      rw [oracle_snd_eq]
      simp [hre, hne, h4]

/-- Witness for C4 at a concrete input: a single normalized entry at 3/5
for stream makes the derived type stream. -/
theorem modelType_threshold_witness :
    (get_oracle_analysis_results (some [("Stream", (3 : ℚ) / 5)])).2 =
      "stream" :=
  ((modelType_threshold_spec [("Stream", (3 : ℚ) / 5)]).2
      ("stream", (3 : ℚ) / 5) (by with_unfolding_all decide) (by norm_num)).2
    (by with_unfolding_all decide)

/-! ### Normalization: case folding, alias table, summation -/

/-- The total probability mass that the raw entries contribute to the
canonical type t through normalization. -/
def canonMass (raw : List (String × ℚ)) (t : String) : ℚ :=
  ((raw.filter (fun kv => decide (normalizeKey kv.1 = t))).map Prod.snd).sum

theorem lookupProb_addProb (m : List (String × ℚ)) (k : String) (v : ℚ)
    (t : String) :
    lookupProb (addProb m k v) t =
      if t = k then some ((lookupProb m k).getD 0 + v)
      else lookupProb m t := by
  induction m with
  | nil =>
    by_cases h : t = k <;> simp [addProb, lookupProb, h]
    exact fun h2 => absurd h2.symm h
  | cons hd rest ih =>
    by_cases h1 : hd.1 = k
    · simp only [addProb, if_pos h1]
      by_cases h2 : t = k
      · subst h2
        simp [lookupProb, h1]
      · have h3 : ¬ hd.1 = t := fun h => h2 (h.symm.trans h1)
        simp [lookupProb, h3, h2]
    · simp only [addProb, if_neg h1]
      by_cases h3 : hd.1 = t
      · have h2 : ¬ t = k := fun h => h1 (h3.trans h)
        simp [lookupProb, h3, h2]
      · by_cases h2 : t = k
        · subst h2
          simp [lookupProb, h3, ih, h1]
        · simp [lookupProb, h3, ih, h2]

theorem mem_addProb (m : List (String × ℚ)) (k : String) (v : ℚ) :
    ∀ kv ∈ addProb m k v, kv.1 = k ∨ kv ∈ m := by
  induction m with
  | nil =>
    intro kv hkv
    simp only [addProb] at hkv
    simp at hkv
    left
    rw [hkv]
  | cons hd rest ih =>
    intro kv hkv
    by_cases h1 : hd.1 = k
    · simp only [addProb, if_pos h1] at hkv
      rcases List.mem_cons.mp hkv with h2 | h2
      · left
        rw [h2, h1]
      · right
        exact List.mem_cons_of_mem hd h2
    · simp only [addProb, if_neg h1] at hkv
      rcases List.mem_cons.mp hkv with h2 | h2
      · right
        rw [h2]
        exact List.mem_cons_self hd rest
      · rcases ih kv h2 with h3 | h3
        · left
          exact h3
        · right
          exact List.mem_cons_of_mem hd h3

theorem normalizeInto_keys (raw : List (String × ℚ)) :
    ∀ m, (∀ kv ∈ m, kv.1 ∈ VALID_TYPES) →
      ∀ kv ∈ normalizeInto m raw, kv.1 ∈ VALID_TYPES := by
  induction raw with
  | nil =>
    intro m hm kv hkv
    exact hm kv hkv
  | cons hd rest ih =>
    intro m hm kv hkv
    by_cases hv : normalizeKey hd.1 ∈ VALID_TYPES
    · simp only [normalizeInto, if_pos hv] at hkv
      refine ih (addProb m (normalizeKey hd.1) hd.2) ?_ kv hkv
      intro kv2 hkv2
      rcases mem_addProb m (normalizeKey hd.1) hd.2 kv2 hkv2 with h | h
      · rw [h]
        exact hv
      · exact hm kv2 h
    · simp only [normalizeInto, if_neg hv] at hkv
      exact ih m hm kv hkv

theorem canonMass_nil (t : String) : canonMass [] t = 0 := rfl

theorem canonMass_cons (hd : String × ℚ) (rest : List (String × ℚ))
    (t : String) :
    canonMass (hd :: rest) t =
      if normalizeKey hd.1 = t then hd.2 + canonMass rest t
      else canonMass rest t := by
  by_cases h : normalizeKey hd.1 = t <;>
    simp [canonMass, List.filter_cons, h]

theorem canonMass_eq_zero (rest : List (String × ℚ)) (t : String)
    (h : ¬ ∃ kv ∈ rest, normalizeKey kv.1 = t) : canonMass rest t = 0 := by
  have : rest.filter (fun kv => decide (normalizeKey kv.1 = t)) = [] := by
    rw [List.filter_eq_nil_iff]
    intro kv hmem
    simp only [decide_eq_true_eq]
    exact fun heq => h ⟨kv, hmem, heq⟩
  simp [canonMass, this]

theorem normalizeInto_lookup (t : String) (ht : t ∈ VALID_TYPES) :
    ∀ (raw m : List (String × ℚ)),
      lookupProb (normalizeInto m raw) t =
        if ∃ kv ∈ raw, normalizeKey kv.1 = t
        then some ((lookupProb m t).getD 0 + canonMass raw t)
        else lookupProb m t := by
  intro raw
  induction raw with
  | nil =>
    intro m
    simp [normalizeInto]
  | cons hd rest ih =>
    intro m
    by_cases hv : normalizeKey hd.1 ∈ VALID_TYPES
    · simp only [normalizeInto, if_pos hv]
      rw [ih (addProb m (normalizeKey hd.1) hd.2)]
      by_cases hk : normalizeKey hd.1 = t
      · have hcond : ∃ kv ∈ hd :: rest, normalizeKey kv.1 = t :=
          ⟨hd, List.mem_cons_self hd rest, hk⟩
        rw [if_pos hcond, canonMass_cons, if_pos hk]
        have hlook : lookupProb (addProb m (normalizeKey hd.1) hd.2) t =
            some ((lookupProb m t).getD 0 + hd.2) := by
          rw [lookupProb_addProb, if_pos hk.symm, hk]
        by_cases hrest : ∃ kv ∈ rest, normalizeKey kv.1 = t
        · rw [if_pos hrest, hlook]
          simp [add_assoc]
        · rw [if_neg hrest, hlook, canonMass_eq_zero rest t hrest]
          simp
      · have hlook : lookupProb (addProb m (normalizeKey hd.1) hd.2) t =
            lookupProb m t := by
          rw [lookupProb_addProb, if_neg (fun h => hk h.symm)]
        rw [hlook, canonMass_cons, if_neg hk]
        have hcond : (∃ kv ∈ hd :: rest, normalizeKey kv.1 = t) ↔
            (∃ kv ∈ rest, normalizeKey kv.1 = t) := by
          constructor
          · rintro ⟨kv, hmem, heq⟩
            rcases List.mem_cons.mp hmem with h2 | h2
            · exact absurd (h2 ▸ heq) hk
            · exact ⟨kv, h2, heq⟩
          · rintro ⟨kv, hmem, heq⟩
            exact ⟨kv, List.mem_cons_of_mem hd hmem, heq⟩
        rw [if_congr hcond rfl rfl]
    · simp only [normalizeInto, if_neg hv]
      rw [ih m]
      have hk : ¬ normalizeKey hd.1 = t := fun h => hv (h ▸ ht)
      rw [canonMass_cons, if_neg hk]
      have hcond : (∃ kv ∈ hd :: rest, normalizeKey kv.1 = t) ↔
          (∃ kv ∈ rest, normalizeKey kv.1 = t) := by
        constructor
        · rintro ⟨kv, hmem, heq⟩
          rcases List.mem_cons.mp hmem with h2 | h2
          · exact absurd (h2 ▸ heq) hk
          · exact ⟨kv, h2, heq⟩
        · rintro ⟨kv, hmem, heq⟩
          exact ⟨kv, List.mem_cons_of_mem hd hmem, heq⟩
      rw [if_congr hcond rfl rfl]

/-- C8. The probability normalizer maps labels case-insensitively through
the fixed alias table, discards unrecognized labels (every key of the
output is canonical), and sums the contributions of distinct aliases of
the same canonical type; in particular normalizing
(Stream at 3/10, 串 at 1/5) yields stream at 1/2. -/
theorem alias_summation_spec (raw : List (String × ℚ)) (t : String)
    (ht : t ∈ VALID_TYPES) :
    (lookupProb (normalizeProbs raw) t =
       if ∃ kv ∈ raw, normalizeKey kv.1 = t then some (canonMass raw t)
       else none) ∧
    (∀ kv ∈ normalizeProbs raw, kv.1 ∈ VALID_TYPES) ∧
    normalizeProbs [("Stream", (3 : ℚ) / 10), ("串", (1 : ℚ) / 5)] =
      [("stream", (1 : ℚ) / 2)] := by
  refine ⟨?_, normalizeInto_keys raw [] (by simp), ?_⟩
  · rw [normalizeProbs, normalizeInto_lookup t ht raw []]
    by_cases h : ∃ kv ∈ raw, normalizeKey kv.1 = t
    · simp [h, lookupProb]
    · simp [h, lookupProb]
  · with_unfolding_all decide

/-- Witness for C8 at the concrete input of the claim. -/
theorem alias_summation_witness :
    lookupProb (normalizeProbs [("Stream", (3 : ℚ) / 10), ("串", (1 : ℚ) / 5)])
      "stream" = some ((1 : ℚ) / 2) := by
  rw [(alias_summation_spec [("Stream", (3 : ℚ) / 10), ("串", (1 : ℚ) / 5)]
    "stream" (by decide)).1]
  with_unfolding_all decide

/-! ### The review queue as a bid-keyed table -/

theorem filter_map_repl (bid : Nat) (r : Reason) (rid : Option Nat) (t : Nat) :
    ∀ (l : List PendingRow), (l.map (fun p => p.bid)).Nodup →
      (∃ p ∈ l, p.bid = bid) →
      ((l.map (replRow bid r rid t)).filter (fun p => decide (p.bid = bid))) =
        [⟨bid, r, rid, t⟩] := by
  intro l
  induction l with
  | nil =>
    intro _ hex
    simp at hex
  | cons hd rest ih =>
    intro hnd hex
    rw [List.map_cons] at hnd
    have hndr := hnd.of_cons
    have hnotmem : hd.bid ∉ rest.map (fun p => p.bid) :=
      (List.nodup_cons.mp hnd).1
    by_cases hb : hd.bid = bid
    · have hrest : ∀ p ∈ rest, p.bid ≠ bid := by
        intro p hp heq
        exact hnotmem
          (hb ▸ heq ▸ List.mem_map_of_mem (fun q => q.bid) hp)
      have hmapid : rest.map (replRow bid r rid t) = rest := by
        have h2 : rest.map (replRow bid r rid t) =
            rest.map (fun p => p) :=
          List.map_congr_left fun p hp => by
            simp [replRow, hrest p hp]
        simpa using h2
      have hfrest : rest.filter (fun p => decide (p.bid = bid)) = [] := by
        rw [List.filter_eq_nil_iff]
        intro p hp
        simp [hrest p hp]
      have hhd : replRow bid r rid t hd = ⟨bid, r, rid, t⟩ := by
        simp [replRow, hb]
      rw [List.map_cons, hmapid, List.filter_cons, hhd]
      simp [hfrest]
    · have hex2 : ∃ p ∈ rest, p.bid = bid := by
        obtain ⟨p, hp, hpb⟩ := hex
        rcases List.mem_cons.mp hp with h2 | h2
        · exact absurd (h2 ▸ hpb) hb
        · exact ⟨p, h2, hpb⟩
      have hhd : replRow bid r rid t hd = hd := by
        simp [replRow, hb]
      rw [List.map_cons, hhd, List.filter_cons]
      rw [if_neg (by simp [hb])]
      exact ih hndr hex2

/-- One upsert step: the bid keys stay duplicate-free, and the rows for
the upserted bid reduce to exactly the fresh row. -/
theorem add_to_pending_review_spec (l : List PendingRow) (bid : Nat)
    (r : Reason) (rid : Option Nat) (t : Nat)
    (h : (l.map (fun p => p.bid)).Nodup) :
    ((add_to_pending_review l bid r rid t).map (fun p => p.bid)).Nodup ∧
    (add_to_pending_review l bid r rid t).filter
      (fun p => decide (p.bid = bid)) = [⟨bid, r, rid, t⟩] := by
  by_cases hany : l.any (fun p => decide (p.bid = bid))
  · have hex : ∃ p ∈ l, p.bid = bid := by
      obtain ⟨p, hp, hpb⟩ := List.any_eq_true.mp hany
      exact ⟨p, hp, of_decide_eq_true hpb⟩
    have hdef : add_to_pending_review l bid r rid t =
        l.map (replRow bid r rid t) := by
      rw [add_to_pending_review, if_pos hany]
    constructor
    · rw [hdef]
      have h2 : (l.map (replRow bid r rid t)).map (fun p => p.bid) =
          l.map (fun p => p.bid) := by
        rw [List.map_map]
        exact List.map_congr_left fun p _ => by
          by_cases hp : p.bid = bid <;> simp [replRow, hp]
      rw [h2]
      exact h
    · rw [hdef]
      exact filter_map_repl bid r rid t l h hex
  · have hnone : ∀ p ∈ l, p.bid ≠ bid := by
      intro p hp heq
      exact hany (List.any_eq_true.mpr ⟨p, hp, decide_eq_true heq⟩)
    have hdef : add_to_pending_review l bid r rid t =
        l ++ [⟨bid, r, rid, t⟩] := by
      rw [add_to_pending_review, if_neg hany]
    constructor
    · rw [hdef, List.map_append]
      rw [List.nodup_append]
      refine ⟨h, List.nodup_singleton bid, ?_⟩
      intro b hb hb2
      simp at hb2
      obtain ⟨p, hp, hpb⟩ := List.mem_map.mp hb
      exact hnone p hp (hpb.trans hb2)
    · rw [hdef, List.filter_append]
      have h1 : l.filter (fun p => decide (p.bid = bid)) = [] := by
        rw [List.filter_eq_nil_iff]
        intro p hp
        simp [hnone p hp]
      rw [h1]
      simp

/-- C5. The review queue holds at most one live row per bid: starting from
a queue with duplicate-free bid keys, an upsert keeps the keys
duplicate-free and leaves exactly one row for the upserted bid carrying
the new reason; two consecutive upserts for the same bid leave exactly one
row carrying the second reason. -/
theorem review_queue_upsert_spec (l : List PendingRow) (bid : Nat)
    (r1 r2 : Reason) (id1 id2 : Option Nat) (t1 t2 : Nat)
    (h : (l.map (fun p => p.bid)).Nodup) :
    ((add_to_pending_review l bid r1 id1 t1).map (fun p => p.bid)).Nodup ∧
    (add_to_pending_review l bid r1 id1 t1).filter
      (fun p => decide (p.bid = bid)) = [⟨bid, r1, id1, t1⟩] ∧
    ((add_to_pending_review (add_to_pending_review l bid r1 id1 t1)
        bid r2 id2 t2).map (fun p => p.bid)).Nodup ∧
    (add_to_pending_review (add_to_pending_review l bid r1 id1 t1)
        bid r2 id2 t2).filter (fun p => decide (p.bid = bid)) =
      [⟨bid, r2, id2, t2⟩] := by
  obtain ⟨hn1, hf1⟩ := add_to_pending_review_spec l bid r1 id1 t1 h
  obtain ⟨hn2, hf2⟩ :=
    add_to_pending_review_spec (add_to_pending_review l bid r1 id1 t1)
      bid r2 id2 t2 hn1
  exact ⟨hn1, hf1, hn2, hf2⟩

/-- Witness for C5 on a concrete queue with one foreign row. -/
theorem review_queue_upsert_witness :
    ((add_to_pending_review [⟨7, Reason.oracleAmbiguousResult, none, 3⟩]
        1 Reason.oracleAmbiguousResult none 4).map (fun p => p.bid)).Nodup ∧
    (add_to_pending_review [⟨7, Reason.oracleAmbiguousResult, none, 3⟩]
        1 Reason.oracleAmbiguousResult none 4).filter
      (fun p => decide (p.bid = 1)) =
      [⟨1, Reason.oracleAmbiguousResult, none, 4⟩] ∧
    ((add_to_pending_review
        (add_to_pending_review [⟨7, Reason.oracleAmbiguousResult, none, 3⟩]
          1 Reason.oracleAmbiguousResult none 4)
        1 Reason.oracleAmbiguousOrFailedNoUserType none 5).map
      (fun p => p.bid)).Nodup ∧
    (add_to_pending_review
        (add_to_pending_review [⟨7, Reason.oracleAmbiguousResult, none, 3⟩]
          1 Reason.oracleAmbiguousResult none 4)
        1 Reason.oracleAmbiguousOrFailedNoUserType none 5).filter
      (fun p => decide (p.bid = 1)) =
      [⟨1, Reason.oracleAmbiguousOrFailedNoUserType, none, 5⟩] :=
  review_queue_upsert_spec [⟨7, Reason.oracleAmbiguousResult, none, 3⟩] 1
    Reason.oracleAmbiguousResult Reason.oracleAmbiguousOrFailedNoUserType
    none none 4 5 (by decide)

/-! ### Administrator override -/

/-- C3. update_beatmap_classification returns false and leaves the state
untouched when no BeatmapAnalysis row exists for bid (NotFound) and on a
database error; on success it returns true, sets determined_b_type to the
new type, clears is_auto_typed, records reviewer and timestamp, deletes
every PendingReview row for bid, and changes nothing else — and every
outcome is all or nothing: either the unchanged state comes back with
false, or the analysis update and the queue deletion are both applied. -/
theorem override_classification_spec (st : DBState) (bid : Nat)
    (newType adminId : String) (now : Nat) (dbError : Bool) :
    (st.analysis bid = none →
       update_beatmap_classification st bid newType adminId now dbError =
         (false, st)) ∧
    (dbError = true →
       update_beatmap_classification st bid newType adminId now dbError =
         (false, st)) ∧
    (∀ row, st.analysis bid = some row → dbError = false →
       (update_beatmap_classification st bid newType adminId now dbError).1 =
         true ∧
       (update_beatmap_classification st bid newType adminId now
           dbError).2.analysis bid =
         some { row with
                determined_b_type := newType
                is_auto_typed := false
                manual_review_at := some now
                reviewed_by_admin_id := some adminId } ∧
       (∀ p ∈ (update_beatmap_classification st bid newType adminId now
           dbError).2.pending, p.bid ≠ bid) ∧
       (update_beatmap_classification st bid newType adminId now
           dbError).2.pending =
         st.pending.filter (fun p => decide (p.bid ≠ bid)) ∧
       (update_beatmap_classification st bid newType adminId now
           dbError).2.recommendations = st.recommendations ∧
       (∀ b2, b2 ≠ bid →
          (update_beatmap_classification st bid newType adminId now
            dbError).2.analysis b2 = st.analysis b2)) ∧
    (update_beatmap_classification st bid newType adminId now dbError =
       (false, st) ∨
     (update_beatmap_classification st bid newType adminId now dbError).1 =
       true) := by
  refine ⟨?_, ?_, ?_, ?_⟩
  · intro h
    cases dbError
    · simp [update_beatmap_classification, h]
    · simp [update_beatmap_classification]
  · intro h
    subst h
    simp [update_beatmap_classification]
  · intro row hrow hde
    subst hde
    have hres : update_beatmap_classification st bid newType adminId now
        false =
        (true,
         { st with
           analysis := Function.update st.analysis bid (some
             { row with
               determined_b_type := newType
               is_auto_typed := false
               manual_review_at := some now
               reviewed_by_admin_id := some adminId })
           pending := st.pending.filter (fun p => decide (p.bid ≠ bid)) }) := by
      simp [update_beatmap_classification, hrow]
    rw [hres]
    refine ⟨rfl, ?_, ?_, rfl, rfl, ?_⟩
    · exact Function.update_same _ _ _
    · intro p hp
      have h2 := (List.mem_filter.mp hp).2
      simpa using h2
    · intro b2 hb2
      exact Function.update_noteq hb2 _ _
  · cases dbError
    · cases hrow : st.analysis bid
      · left
        simp [update_beatmap_classification, hrow]
      · right
        simp [update_beatmap_classification, hrow]
    · left
      simp [update_beatmap_classification]

/-- A manually classified sample analysis row. -/
def sampleManualRow : AnalysisRow :=
  { determined_b_type := "tech", is_auto_typed := false, stream_prob := none,
    jump_prob := none, alt_prob := none, tech_prob := none,
    oracle_last_run_at := none, manual_review_at := none,
    reviewed_by_admin_id := none }

/-- A sample state with one analysis row for bid 1 and two queued reviews,
one of them for bid 1. -/
def stOverride : DBState :=
  { analysis := fun b => if b = 1 then some sampleManualRow else none,
    pending := [⟨1, Reason.oracleAmbiguousResult, none, 2⟩,
                ⟨7, Reason.oracleAmbiguousOrFailedNoUserType, none, 3⟩],
    recommendations := [] }

/-- Witness for C3: a successful override on a concrete state updates the
analysis row and deletes exactly the queued review of its bid. -/
theorem override_classification_witness :
    (update_beatmap_classification stOverride 1 "tech" "admin" 9 false).1 =
      true ∧
    (update_beatmap_classification stOverride 1 "tech" "admin" 9
        false).2.analysis 1 =
      some { sampleManualRow with
             determined_b_type := "tech"
             is_auto_typed := false
             manual_review_at := some 9
             reviewed_by_admin_id := some "admin" } ∧
    (update_beatmap_classification stOverride 1 "tech" "admin" 9
        false).2.pending =
      stOverride.pending.filter (fun p => decide (p.bid ≠ 1)) ∧
    (update_beatmap_classification stOverride 1 "tech" "admin" 9
        false).2.recommendations = stOverride.recommendations := by
  obtain ⟨h1, h2, h3, h4, h5, h6⟩ :=
    (override_classification_spec stOverride 1 "tech" "admin" 9
      false).2.2.1 sampleManualRow rfl rfl
  exact ⟨h1, h2, h4, h5⟩

/-! ### Frame properties of the analysis writes -/

/-- store_beatmap_analysis never changes determined_b_type or
is_auto_typed of a manually classified row, at any key: the ON DUPLICATE
KEY guards keep them, and other keys are untouched. -/
theorem store_analysis_manual_preserved (A : Nat → Option AnalysisRow)
    (bid : Nat) (probs : Option (List (String × ℚ))) (dt : String)
    (ia : Bool) (now : Nat) (b : Nat) (row : AnalysisRow)
    (hrow : A b = some row) (hman : row.is_auto_typed = false) :
    ∃ row2, store_beatmap_analysis A bid probs dt ia now b = some row2 ∧
      row2.determined_b_type = row.determined_b_type ∧
      row2.is_auto_typed = false := by
  by_cases hb : b = bid
  · subst hb
    refine ⟨{ determined_b_type := row.determined_b_type
              is_auto_typed := false
              stream_prob := lookupProb (probs.getD []) "stream"
              jump_prob := lookupProb (probs.getD []) "jump"
              alt_prob := lookupProb (probs.getD []) "alt"
              tech_prob := lookupProb (probs.getD []) "tech"
              oracle_last_run_at := if probs.isSome then some now else none
              manual_review_at := row.manual_review_at
              reviewed_by_admin_id := row.reviewed_by_admin_id },
            ?_, rfl, rfl⟩
    rw [store_beatmap_analysis, Function.update_same]
    simp [hrow, hman]
  · refine ⟨row, ?_, rfl, hman⟩
    rw [store_beatmap_analysis, Function.update_noteq hb]
    exact hrow

/-- store_beatmap_analysis_probabilities_only never changes
determined_b_type or is_auto_typed of any row: it only refreshes the
probability columns and the run timestamp of a manual row. -/
theorem store_probs_only_preserves (A : Nat → Option AnalysisRow)
    (bid : Nat) (rp : List (String × ℚ)) (now : Nat) (b : Nat)
    (row : AnalysisRow) (hrow : A b = some row) :
    ∃ row2,
      store_beatmap_analysis_probabilities_only A bid rp now b = some row2 ∧
      row2.determined_b_type = row.determined_b_type ∧
      row2.is_auto_typed = row.is_auto_typed := by
  unfold store_beatmap_analysis_probabilities_only
  cases h0 : A bid with
  | none =>
    simp only [h0]
    exact ⟨row, hrow, rfl, rfl⟩
  | some row0 =>
    simp only [h0]
    by_cases hm : row0.is_auto_typed = false
    · rw [if_pos hm]
      by_cases hb : b = bid
      · subst hb
        have heq : row = row0 := Option.some.inj (hrow.symm.trans h0)
        subst heq
        exact ⟨_, Function.update_same _ _ _, rfl, rfl⟩
      · rw [Function.update_noteq hb]
        exact ⟨row, hrow, rfl, rfl⟩
    · rw [if_neg hm]
      exact ⟨row, hrow, rfl, rfl⟩

/-- The analysis table after one recommendation invocation is the old one,
a probabilities-only refresh of the invoked bid, or a
store_beatmap_analysis upsert of the invoked bid with is_auto_typed
true. -/
theorem handle_analysis2_cases (st : DBState) (qqid : Nat)
    (uname : Option String) (bid : Nat) (ut : Option String) (desc : String)
    (mok : Bool) (rawOracle : Option (List (String × ℚ))) (now : Nat) :
    (handle_recommend_command st qqid uname bid ut desc mok rawOracle
        now).2.analysis = st.analysis ∨
    (∃ rp, (handle_recommend_command st qqid uname bid ut desc mok rawOracle
        now).2.analysis =
      store_beatmap_analysis_probabilities_only st.analysis bid rp now) ∨
    (∃ dt, (handle_recommend_command st qqid uname bid ut desc mok rawOracle
        now).2.analysis =
      store_beatmap_analysis st.analysis bid
        (get_oracle_analysis_results rawOracle).1 dt true now) := by
  cases hmok : mok with
  | false =>
    left
    simp [handle_recommend_command]
  | true =>
    cases hrow : st.analysis bid with
    | none =>
      right
      right
      refine ⟨(recommend_case_auto st.analysis st.pending bid ut
        (get_oracle_analysis_results rawOracle).1
        (get_oracle_analysis_results rawOracle).2
        now).actual_recommend_type, ?_⟩
      simp [handle_recommend_command, hrow, recommend_case_auto]
    | some row =>
      by_cases hman : row.is_auto_typed = false
      · cases hora : (get_oracle_analysis_results rawOracle).1 with
        | none =>
          left
          simp [handle_recommend_command, hrow, hman,
            recommend_case_manual, hora]
        | some rp =>
          right
          left
          exact ⟨rp, by
            simp [handle_recommend_command, hrow, hman,
              recommend_case_manual, hora]⟩
      · right
        right
        refine ⟨(recommend_case_auto st.analysis st.pending bid ut
          (get_oracle_analysis_results rawOracle).1
          (get_oracle_analysis_results rawOracle).2
          now).actual_recommend_type, ?_⟩
        simp [handle_recommend_command, hrow, hman, recommend_case_auto]

/-- One recommendation invocation keeps the determined type of a manually
classified row, and keeps it manually classified. -/
theorem applyRecommend_manual_locked (st : DBState) (c : RecommendCall)
    (b : Nat) (row : AnalysisRow) (hrow : st.analysis b = some row)
    (hman : row.is_auto_typed = false) :
    ∃ row2, (applyRecommend st c).analysis b = some row2 ∧
      row2.determined_b_type = row.determined_b_type ∧
      row2.is_auto_typed = false := by
  rcases handle_analysis2_cases st c.qqid c.osuUsername c.bid c.userType
      c.description c.metadataOk c.rawOracle c.now with h | ⟨rp, h⟩ | ⟨dt, h⟩
  · exact ⟨row, by rw [applyRecommend, h, hrow], rfl, hman⟩
  · rw [applyRecommend, h]
    obtain ⟨row2, h1, h2, h3⟩ :=
      store_probs_only_preserves st.analysis c.bid rp c.now b row hrow
    exact ⟨row2, h1, h2, h3.trans hman⟩
  · rw [applyRecommend, h]
    exact store_analysis_manual_preserved st.analysis c.bid
      (get_oracle_analysis_results c.rawOracle).1 dt true c.now b row
      hrow hman

theorem runRecommends_manual_locked (cs : List RecommendCall) :
    ∀ (st : DBState) (b : Nat) (row : AnalysisRow),
      st.analysis b = some row → row.is_auto_typed = false →
      ∃ row2, (runRecommends st cs).analysis b = some row2 ∧
        row2.determined_b_type = row.determined_b_type ∧
        row2.is_auto_typed = false := by
  induction cs with
  | nil =>
    intro st b row hrow hman
    exact ⟨row, hrow, rfl, hman⟩
  | cons c rest ih =>
    intro st b row hrow hman
    obtain ⟨row1, h1, h2, h3⟩ := applyRecommend_manual_locked st c b row
      hrow hman
    obtain ⟨row2, g1, g2, g3⟩ := ih (applyRecommend st c) b row1 h1 h3
    exact ⟨row2, g1, g2.trans h2, g3⟩

/-- C1. Manual lock invariant: for a beatmap whose analysis row has
is_auto_typed = false, no sequence of recommendation invocations (for any
asserted type, any oracle output, any metadata outcome) changes its
determined type, and the row stays manually classified; the administrator
override, by contrast, does change the determined type. -/
theorem manual_lock_invariant (st : DBState) (cs : List RecommendCall)
    (b : Nat) (row : AnalysisRow) (hrow : st.analysis b = some row)
    (hman : row.is_auto_typed = false) :
    (∃ row2, (runRecommends st cs).analysis b = some row2 ∧
       row2.determined_b_type = row.determined_b_type ∧
       row2.is_auto_typed = false) ∧
    (∀ nt adm now2,
       (update_beatmap_classification st b nt adm now2 false).2.analysis b =
         some { row with
                determined_b_type := nt
                is_auto_typed := false
                manual_review_at := some now2
                reviewed_by_admin_id := some adm }) := by
  refine ⟨runRecommends_manual_locked cs st b row hrow hman, ?_⟩
  intro nt adm now2
  simp [update_beatmap_classification, hrow, Function.update_same]

/-- Witness for C1: one invocation asserting jump on a manually tech-typed
beatmap leaves it tech and manual, while an override to stream changes
it. -/
theorem manual_lock_invariant_witness :
    ((runRecommends stOverride
        [⟨10, none, 1, some "jump", "d", true, none, 0⟩]).analysis 1).map
      (fun r => (r.determined_b_type, r.is_auto_typed)) =
      some ("tech", false) ∧
    (update_beatmap_classification stOverride 1 "stream" "adm" 4
        false).2.analysis 1 =
      some { sampleManualRow with
             determined_b_type := "stream"
             is_auto_typed := false
             manual_review_at := some 4
             reviewed_by_admin_id := some "adm" } := by
  obtain ⟨⟨row2, h1, h2, h3⟩, hov⟩ := manual_lock_invariant stOverride
    [⟨10, none, 1, some "jump", "d", true, none, 0⟩] 1 sampleManualRow
    rfl rfl
  refine ⟨?_, hov "stream" "adm" 4⟩
  rw [h1]
  simp [h2, h3, sampleManualRow]

/-! ### Branch equations of the recommendation handler -/

/-- With metadata available and an existing auto-typed row or no row, the
handler runs the auto branch and appends the recommendation row. -/
theorem handle_auto_eq (st : DBState) (qqid : Nat) (uname : Option String)
    (bid : Nat) (ut : Option String) (desc : String)
    (rawOracle : Option (List (String × ℚ))) (now : Nat)
    (hA : st.analysis bid = none ∨
      ∃ row, st.analysis bid = some row ∧ row.is_auto_typed = true) :
    handle_recommend_command st qqid uname bid ut desc true rawOracle now =
      (let ora := get_oracle_analysis_results rawOracle
       let oc := recommend_case_auto st.analysis st.pending bid ut ora.1
         ora.2 now
       (Except.ok
         { finalCatalogType := oc.final_determined_b_type_for_db,
           recommendationType := oc.actual_recommend_type,
           advisories := oc.additional_messages,
           recommendationId := st.recommendations.length + 1 },
        { analysis := oc.analysis2, pending := oc.pending2,
          recommendations := st.recommendations ++
            [{ qqid := qqid, bid := bid,
               osu_username_at_recommend_time := uname,
               user_requested_type := ut,
               actual_recommend_type := oc.actual_recommend_type,
               recommendation_description := desc,
               recommended_at := now }] })) := by
  rcases hA with h | ⟨row, h, hauto⟩
  · simp [handle_recommend_command, h]
  · simp [handle_recommend_command, h, hauto]

/-- With metadata available and a manually classified row, the handler
runs the manual branch and appends the recommendation row. -/
theorem handle_manual_eq (st : DBState) (qqid : Nat) (uname : Option String)
    (bid : Nat) (ut : Option String) (desc : String)
    (rawOracle : Option (List (String × ℚ))) (now : Nat) (row : AnalysisRow)
    (hrow : st.analysis bid = some row)
    (hman : row.is_auto_typed = false) :
    handle_recommend_command st qqid uname bid ut desc true rawOracle now =
      (let oc := recommend_case_manual st.analysis st.pending row bid ut
         (get_oracle_analysis_results rawOracle).1 now
       (Except.ok
         { finalCatalogType := oc.final_determined_b_type_for_db,
           recommendationType := oc.actual_recommend_type,
           advisories := oc.additional_messages,
           recommendationId := st.recommendations.length + 1 },
        { analysis := oc.analysis2, pending := oc.pending2,
          recommendations := st.recommendations ++
            [{ qqid := qqid, bid := bid,
               osu_username_at_recommend_time := uname,
               user_requested_type := ut,
               actual_recommend_type := oc.actual_recommend_type,
               recommendation_description := desc,
               recommended_at := now }] })) := by
  simp [handle_recommend_command, hrow, hman]

/-- C9. In Case B (existing row with is_auto_typed = false) the analysis
write is a probabilities-only refresh: when the oracle call failed the
analysis table is untouched, and when it returned a dict the row of the
target bid gets exactly its probability columns and oracle_last_run_at
replaced — determined_b_type and is_auto_typed unchanged — while all
other rows stay as they were. -/
theorem caseB_probabilities_only_refresh (st : DBState) (qqid : Nat)
    (uname : Option String) (bid : Nat) (ut : Option String) (desc : String)
    (rawOracle : Option (List (String × ℚ))) (now : Nat) (row : AnalysisRow)
    (hrow : st.analysis bid = some row)
    (hman : row.is_auto_typed = false) :
    (rawOracle = none →
       (handle_recommend_command st qqid uname bid ut desc true rawOracle
         now).2.analysis = st.analysis) ∧
    (∀ rp, rawOracle = some rp →
       (handle_recommend_command st qqid uname bid ut desc true rawOracle
           now).2.analysis bid =
         some { row with
                stream_prob := lookupProb rp "stream"
                jump_prob := lookupProb rp "jump"
                alt_prob := lookupProb rp "alt"
                tech_prob := lookupProb rp "tech"
                oracle_last_run_at := some now } ∧
       (∀ b2, b2 ≠ bid →
         (handle_recommend_command st qqid uname bid ut desc true rawOracle
           now).2.analysis b2 = st.analysis b2)) := by
  constructor
  · intro h0
    subst h0
    rw [handle_manual_eq st qqid uname bid ut desc none now row hrow hman]
    simp [recommend_case_manual, get_oracle_analysis_results]
  · intro rp hrp
    subst hrp
    rw [handle_manual_eq st qqid uname bid ut desc (some rp) now row hrow
      hman]
    have h1 : (get_oracle_analysis_results (some rp)).1 = some rp :=
      oracle_fst _
    constructor
    · simp only [recommend_case_manual, h1]
      unfold store_beatmap_analysis_probabilities_only
      simp only [hrow]
      rw [if_pos hman, Function.update_same]
    · intro b2 hb2
      simp only [recommend_case_manual, h1]
      unfold store_beatmap_analysis_probabilities_only
      simp only [hrow]
      rw [if_pos hman, Function.update_noteq hb2]

/-- Witness for C9 on a concrete manually classified state and a concrete
oracle dict. -/
theorem caseB_probabilities_only_witness :
    (handle_recommend_command stOverride 10 none 1 none "d" true
        (some [("stream", (9 : ℚ) / 10)]) 7).2.analysis 1 =
      some { sampleManualRow with
             stream_prob := lookupProb [("stream", (9 : ℚ) / 10)] "stream"
             jump_prob := lookupProb [("stream", (9 : ℚ) / 10)] "jump"
             alt_prob := lookupProb [("stream", (9 : ℚ) / 10)] "alt"
             tech_prob := lookupProb [("stream", (9 : ℚ) / 10)] "tech"
             oracle_last_run_at := some 7 } :=
  ((caseB_probabilities_only_refresh stOverride 10 none 1 none "d"
      (some [("stream", (9 : ℚ) / 10)]) 7 sampleManualRow rfl rfl).2
    [("stream", (9 : ℚ) / 10)] rfl).1

/-- The empty database. -/
def stEmpty : DBState :=
  { analysis := fun _ => none, pending := [], recommendations := [] }

/-- The ambiguous oracle dict of the spec: stream 2/5, jump 3/10. -/
def ambProbs : List (String × ℚ) :=
  [("stream", (2 : ℚ) / 5), ("jump", (3 : ℚ) / 10)]

/-- C6. Case A with no user type and a successful but ambiguous oracle run
(stream 2/5, jump 3/10 — nothing exceeds 1/2): the derived model type is
others, the handler yields recommendation type others with no advisory
message, and the review queue holds exactly one row for the bid with the
ambiguity reason. -/
theorem caseA_ambiguous_spec (st : DBState) (qqid : Nat)
    (uname : Option String) (bid : Nat) (desc : String) (now : Nat)
    (hA : st.analysis bid = none ∨
      ∃ row, st.analysis bid = some row ∧ row.is_auto_typed = true)
    (hnd : (st.pending.map (fun p => p.bid)).Nodup) :
    (get_oracle_analysis_results (some ambProbs)).2 = "others" ∧
    (handle_recommend_command st qqid uname bid none desc true
        (some ambProbs) now).1 =
      Except.ok
        { finalCatalogType := "others", recommendationType := "others",
          advisories := [],
          recommendationId := st.recommendations.length + 1 } ∧
    (handle_recommend_command st qqid uname bid none desc true
        (some ambProbs) now).2.pending.filter
      (fun p => decide (p.bid = bid)) =
      [⟨bid, Reason.oracleAmbiguousResult, none, now⟩] := by
  have hora2 : (get_oracle_analysis_results (some ambProbs)).2 = "others" := by
    with_unfolding_all decide
  have hora1 : (get_oracle_analysis_results (some ambProbs)).1 =
      some ambProbs := oracle_fst _
  have hh := handle_auto_eq st qqid uname bid none desc (some ambProbs) now hA
  have hempty : ambProbs.isEmpty = false := rfl
  refine ⟨hora2, ?_, ?_⟩
  · rw [hh]
    simp [recommend_case_auto, recommend_case_auto_review, hora1, hora2,
      hempty]
  · rw [hh]
    have hpend :
        (recommend_case_auto st.analysis st.pending bid none
          (get_oracle_analysis_results (some ambProbs)).1
          (get_oracle_analysis_results (some ambProbs)).2 now).pending2 =
        add_to_pending_review st.pending bid Reason.oracleAmbiguousResult
          none now := by
      simp [recommend_case_auto, recommend_case_auto_review, hora1, hora2,
        hempty]
    simp only []
    rw [hpend]
    exact (add_to_pending_review_spec st.pending bid
      Reason.oracleAmbiguousResult none now hnd).2

/-- Witness for C6 on the empty database. -/
theorem caseA_ambiguous_witness :
    (get_oracle_analysis_results (some ambProbs)).2 = "others" ∧
    (handle_recommend_command stEmpty 10 none 1 none "d" true
        (some ambProbs) 0).1 =
      Except.ok
        { finalCatalogType := "others", recommendationType := "others",
          advisories := [], recommendationId := 1 } ∧
    (handle_recommend_command stEmpty 10 none 1 none "d" true
        (some ambProbs) 0).2.pending.filter (fun p => decide (p.bid = 1)) =
      [⟨1, Reason.oracleAmbiguousResult, none, 0⟩] :=
  caseA_ambiguous_spec stEmpty 10 none 1 "d" 0 (Or.inl rfl) (by simp [stEmpty])

/-- C2 as stated is false: in Case A with userAssertedType jump and a
failed model call, the enqueued reason is the user/model mismatch reason
(mentioning jump and the fallback others), not the model-failed reason:
on the empty database the queue ends with exactly the mismatch row and
the run emits the mismatch advisory. -/
theorem user_specified_model_failure_counterexample :
    (handle_recommend_command stEmpty 10 none 1 (some "jump") "d" true none
        0).2.pending.map (fun p => p.reason_for_pending) =
      [Reason.userOracleMismatch "jump" "others"] ∧
    (handle_recommend_command stEmpty 10 none 1 (some "jump") "d" true none
        0).2.pending.map (fun p => p.reason_for_pending) ≠
      [Reason.oracleFailedUserSpecifiedType] ∧
    (handle_recommend_command stEmpty 10 none 1 (some "jump") "d" true none
        0).1 =
      Except.ok
        { finalCatalogType := "jump", recommendationType := "jump",
          advisories := [Advisory.youSetType "jump",
                         Advisory.oracleDisagrees "others"],
          recommendationId := 1 } := by
  with_unfolding_all decide

/-- C2 amended. In Case A with userAssertedType jump and a failed model
call, the resolution yields recommendation type jump, writes the analysis
with determined type jump and is_auto_typed true (raw probability columns
NULL, no run timestamp), and upserts the PendingReview row of the bid
with the user/model mismatch reason recording jump against the others
fallback — the model-failed reason is reserved for an asserted type equal
to the degraded model type. -/
theorem user_specified_model_failure_amended (st : DBState) (qqid : Nat)
    (uname : Option String) (bid : Nat) (desc : String) (now : Nat)
    (hA : st.analysis bid = none ∨
      ∃ row, st.analysis bid = some row ∧ row.is_auto_typed = true)
    (hnd : (st.pending.map (fun p => p.bid)).Nodup) :
    (handle_recommend_command st qqid uname bid (some "jump") desc true none
        now).1 =
      Except.ok
        { finalCatalogType := "jump", recommendationType := "jump",
          advisories := [Advisory.youSetType "jump",
                         Advisory.oracleDisagrees "others"],
          recommendationId := st.recommendations.length + 1 } ∧
    ((handle_recommend_command st qqid uname bid (some "jump") desc true
        none now).2.analysis bid).map
      (fun r => (r.determined_b_type, r.is_auto_typed, r.stream_prob,
        r.jump_prob, r.alt_prob, r.tech_prob, r.oracle_last_run_at)) =
      some ("jump", true, none, none, none, none, none) ∧
    (handle_recommend_command st qqid uname bid (some "jump") desc true none
        now).2.pending.filter (fun p => decide (p.bid = bid)) =
      [⟨bid, Reason.userOracleMismatch "jump" "others", none, now⟩] := by
  have hh := handle_auto_eq st qqid uname bid (some "jump") desc none now hA
  refine ⟨?_, ?_, ?_⟩
  · rw [hh]
    simp [recommend_case_auto, recommend_case_auto_review,
      get_oracle_analysis_results]
  · rw [hh]
    simp only [recommend_case_auto, get_oracle_analysis_results]
    rw [store_beatmap_analysis, Function.update_same]
    rcases hA with h | ⟨row, h, hauto⟩
    · simp [h, lookupProb]
    · simp [h, hauto, lookupProb]
  · rw [hh]
    have hpend :
        (recommend_case_auto st.analysis st.pending bid (some "jump")
          (get_oracle_analysis_results none).1
          (get_oracle_analysis_results none).2 now).pending2 =
        add_to_pending_review st.pending bid
          (Reason.userOracleMismatch "jump" "others") none now := by
      simp [recommend_case_auto, recommend_case_auto_review,
        get_oracle_analysis_results]
    simp only []
    rw [hpend]
    exact (add_to_pending_review_spec st.pending bid
      (Reason.userOracleMismatch "jump" "others") none now hnd).2

/-- Witness for the amended C2 on the empty database. -/
theorem user_specified_model_failure_witness :
    (handle_recommend_command stEmpty 10 none 1 (some "jump") "d" true none
        5).1 =
      Except.ok
        { finalCatalogType := "jump", recommendationType := "jump",
          advisories := [Advisory.youSetType "jump",
                         Advisory.oracleDisagrees "others"],
          recommendationId := 1 } ∧
    ((handle_recommend_command stEmpty 10 none 1 (some "jump") "d" true none
        5).2.analysis 1).map
      (fun r => (r.determined_b_type, r.is_auto_typed, r.stream_prob,
        r.jump_prob, r.alt_prob, r.tech_prob, r.oracle_last_run_at)) =
      some ("jump", true, none, none, none, none, none) ∧
    (handle_recommend_command stEmpty 10 none 1 (some "jump") "d" true none
        5).2.pending.filter (fun p => decide (p.bid = 1)) =
      [⟨1, Reason.userOracleMismatch "jump" "others", none, 5⟩] :=
  user_specified_model_failure_amended stEmpty 10 none 1 "d" 5 (Or.inl rfl)
    (by simp [stEmpty])

/-- The oracle dict whose only label is differently cased: Stream 7/10. -/
def casedProbs : List (String × ℚ) := [("Stream", (7 : ℚ) / 10)]

/-- C10. The persistence of per-type probabilities reads the raw,
un-normalized dict by the exact lowercase keys: for every model output in
Case A without a user type, the stored probability columns are the raw
dict lookups of stream, jump, alt, tech — and for the dict with only the
cased label Stream at 7/10, the derived and stored type is stream while
the stored stream probability is NULL. -/
theorem raw_key_persistence_spec (st : DBState) (qqid : Nat)
    (uname : Option String) (bid : Nat) (desc : String) (now : Nat)
    (hA0 : st.analysis bid = none) :
    (∀ raw : List (String × ℚ),
       ((handle_recommend_command st qqid uname bid none desc true
           (some raw) now).2.analysis bid).map
         (fun r => (r.stream_prob, r.jump_prob, r.alt_prob, r.tech_prob)) =
       some (lookupProb raw "stream", lookupProb raw "jump",
         lookupProb raw "alt", lookupProb raw "tech")) ∧
    (handle_recommend_command st qqid uname bid none desc true
        (some casedProbs) now).1 =
      Except.ok
        { finalCatalogType := "stream", recommendationType := "stream",
          advisories := [],
          recommendationId := st.recommendations.length + 1 } ∧
    ((handle_recommend_command st qqid uname bid none desc true
        (some casedProbs) now).2.analysis bid).map
      (fun r => (r.determined_b_type, r.stream_prob)) =
      some ("stream", none) := by
  have hmain : ∀ raw : List (String × ℚ),
      ((handle_recommend_command st qqid uname bid none desc true
          (some raw) now).2.analysis bid).map
        (fun r => (r.stream_prob, r.jump_prob, r.alt_prob, r.tech_prob)) =
      some (lookupProb raw "stream", lookupProb raw "jump",
        lookupProb raw "alt", lookupProb raw "tech") := by
    intro raw
    rw [handle_auto_eq st qqid uname bid none desc (some raw) now
      (Or.inl hA0)]
    simp only [recommend_case_auto]
    rw [store_beatmap_analysis, Function.update_same, oracle_fst]
    simp [hA0]
  have h2 : (get_oracle_analysis_results (some casedProbs)).2 = "stream" := by
    with_unfolding_all decide
  have h1 : (get_oracle_analysis_results (some casedProbs)).1 =
      some casedProbs := oracle_fst _
  have hne : casedProbs.isEmpty = false := rfl
  refine ⟨hmain, ?_, ?_⟩
  · rw [handle_auto_eq st qqid uname bid none desc (some casedProbs) now
      (Or.inl hA0)]
    simp [recommend_case_auto, recommend_case_auto_review, h1, h2, hne]
  · have h3 := hmain casedProbs
    have h4 : lookupProb casedProbs "stream" = none := by
      with_unfolding_all decide
    rw [handle_auto_eq st qqid uname bid none desc (some casedProbs) now
      (Or.inl hA0)]
    simp only [recommend_case_auto, h2]
    rw [store_beatmap_analysis, Function.update_same, oracle_fst]
    simp only [hA0]
    simp [h4]

/-- Witness for C10: general part instantiated at an aliased label, plus
the concrete cased-label divergence, on the empty database. -/
theorem raw_key_persistence_witness :
    ((handle_recommend_command stEmpty 10 none 1 none "d" true
        (some [("串", (3 : ℚ) / 5)]) 0).2.analysis 1).map
      (fun r => (r.stream_prob, r.jump_prob, r.alt_prob, r.tech_prob)) =
      some (lookupProb [("串", (3 : ℚ) / 5)] "stream",
        lookupProb [("串", (3 : ℚ) / 5)] "jump",
        lookupProb [("串", (3 : ℚ) / 5)] "alt",
        lookupProb [("串", (3 : ℚ) / 5)] "tech") ∧
    ((handle_recommend_command stEmpty 10 none 1 none "d" true
        (some casedProbs) 0).2.analysis 1).map
      (fun r => (r.determined_b_type, r.stream_prob)) =
      some ("stream", none) :=
  ⟨(raw_key_persistence_spec stEmpty 10 none 1 "d" 0 rfl).1
      [("串", (3 : ℚ) / 5)],
   (raw_key_persistence_spec stEmpty 10 none 1 "d" 0 rfl).2.2⟩

/-- A row of the review queue after an upsert carries the upserted bid
and reason. -/
theorem add_to_pending_review_mem (l : List PendingRow) (bid : Nat)
    (r : Reason) (rid : Option Nat) (t : Nat) :
    ∃ p ∈ add_to_pending_review l bid r rid t,
      p.bid = bid ∧ p.reason_for_pending = r := by
  by_cases hany : l.any (fun p => decide (p.bid = bid))
  · obtain ⟨q, hq, hqb⟩ := List.any_eq_true.mp hany
    have hqb2 : q.bid = bid := of_decide_eq_true hqb
    refine ⟨replRow bid r rid t q, ?_, ?_, ?_⟩
    · rw [add_to_pending_review, if_pos hany]
      exact List.mem_map_of_mem _ hq
    · simp [replRow, hqb2]
    · simp [replRow, hqb2]
  · refine ⟨⟨bid, r, rid, t⟩, ?_, rfl, rfl⟩
    rw [add_to_pending_review, if_neg hany]
    simp

/-- C7 amended. The handler aborts with MetadataUnavailable exactly when
the metadata fetch for the target beatmap fails; a model-service failure
never aborts: the run still returns a result and appends the
recommendation row, and it routes the beatmap to the review queue in Case
A (no row, or an auto-typed row) — while in Case B (manually classified
row) no review entry is ever requested. -/
theorem metadata_abort_spec (st : DBState) (qqid : Nat)
    (uname : Option String) (bid : Nat) (ut : Option String) (desc : String)
    (mok : Bool) (rawOracle : Option (List (String × ℚ))) (now : Nat) :
    ((handle_recommend_command st qqid uname bid ut desc mok rawOracle
        now).1 = Except.error AbortReason.metadataUnavailable ↔
      mok = false) ∧
    (mok = true →
      ∃ res, (handle_recommend_command st qqid uname bid ut desc mok
        rawOracle now).1 = Except.ok res) ∧
    (mok = true →
      ∃ rrow, (handle_recommend_command st qqid uname bid ut desc mok
          rawOracle now).2.recommendations =
        st.recommendations ++ [rrow] ∧ rrow.bid = bid) ∧
    (mok = true → rawOracle = none →
      (st.analysis bid = none ∨
        (∃ row, st.analysis bid = some row ∧ row.is_auto_typed = true)) →
      (handle_recommend_command st qqid uname bid ut desc mok rawOracle
        now).2.pending.any (fun p => decide (p.bid = bid)) = true) ∧
    (∀ row, st.analysis bid = some row → row.is_auto_typed = false →
      mok = true →
      (handle_recommend_command st qqid uname bid ut desc mok rawOracle
        now).2.pending = st.pending) := by
  have hshape : mok = true →
      (∃ res, (handle_recommend_command st qqid uname bid ut desc mok
        rawOracle now).1 = Except.ok res) ∧
      (∃ rrow, (handle_recommend_command st qqid uname bid ut desc mok
          rawOracle now).2.recommendations =
        st.recommendations ++ [rrow] ∧ rrow.bid = bid) := by
    intro hm
    subst hm
    cases hrow : st.analysis bid with
    | none =>
      rw [handle_auto_eq st qqid uname bid ut desc rawOracle now
        (Or.inl hrow)]
      exact ⟨⟨_, rfl⟩, ⟨_, rfl, rfl⟩⟩
    | some row =>
      by_cases hman : row.is_auto_typed = false
      · rw [handle_manual_eq st qqid uname bid ut desc rawOracle now row
          hrow hman]
        exact ⟨⟨_, rfl⟩, ⟨_, rfl, rfl⟩⟩
      · have hauto : row.is_auto_typed = true := by
          revert hman
          cases row.is_auto_typed <;> simp
        rw [handle_auto_eq st qqid uname bid ut desc rawOracle now
          (Or.inr ⟨row, hrow, hauto⟩)]
        exact ⟨⟨_, rfl⟩, ⟨_, rfl, rfl⟩⟩
  refine ⟨?_, fun hm => (hshape hm).1, fun hm => (hshape hm).2, ?_, ?_⟩
  · constructor
    · intro herr
      cases mok with
      | false => rfl
      | true =>
        obtain ⟨res, hres⟩ := (hshape rfl).1
        rw [herr] at hres
        exact absurd hres (by simp)
    · intro hm
      subst hm
      simp [handle_recommend_command]
  · intro hm hro hA
    subst hm
    subst hro
    rw [handle_auto_eq st qqid uname bid ut desc none now hA]
    simp only [recommend_case_auto]
    cases ut with
    | none =>
      have hpend :
          (recommend_case_auto_review st.pending bid none
            (get_oracle_analysis_results none).1
            (get_oracle_analysis_results none).2 now).2 =
          add_to_pending_review st.pending bid
            Reason.oracleAmbiguousOrFailedNoUserType none now := by
        simp [recommend_case_auto_review, get_oracle_analysis_results]
      simp only [hpend]
      obtain ⟨p, hp, hpb, _⟩ := add_to_pending_review_mem st.pending bid
        Reason.oracleAmbiguousOrFailedNoUserType none now
      exact List.any_eq_true.mpr ⟨p, hp, decide_eq_true hpb⟩
    | some u =>
      by_cases hu : u = "others"
      · have hpend :
            (recommend_case_auto_review st.pending bid (some u)
              (get_oracle_analysis_results none).1
              (get_oracle_analysis_results none).2 now).2 =
            add_to_pending_review st.pending bid
              Reason.oracleFailedUserSpecifiedType none now := by
          simp [recommend_case_auto_review, get_oracle_analysis_results, hu]
        simp only [hpend]
        obtain ⟨p, hp, hpb, _⟩ := add_to_pending_review_mem st.pending bid
          Reason.oracleFailedUserSpecifiedType none now
        exact List.any_eq_true.mpr ⟨p, hp, decide_eq_true hpb⟩
      · have hpend :
            (recommend_case_auto_review st.pending bid (some u)
              (get_oracle_analysis_results none).1
              (get_oracle_analysis_results none).2 now).2 =
            add_to_pending_review st.pending bid
              (Reason.userOracleMismatch u "others") none now := by
          simp [recommend_case_auto_review, get_oracle_analysis_results, hu]
        simp only [hpend]
        obtain ⟨p, hp, hpb, _⟩ := add_to_pending_review_mem st.pending bid
          (Reason.userOracleMismatch u "others") none now
        exact List.any_eq_true.mpr ⟨p, hp, decide_eq_true hpb⟩
  · intro row hrow hman hm
    subst hm
    rw [handle_manual_eq st qqid uname bid ut desc rawOracle now row hrow
      hman]
    simp [recommend_case_manual]

/-- A concrete state with a manually classified row for bid 1 and an
empty review queue. -/
def stManual0 : DBState :=
  { analysis := fun b => if b = 1 then some sampleManualRow else none,
    pending := [], recommendations := [] }

/-- C7 as stated is false: on a manually classified beatmap a failed
model call completes the flow without routing anything to the review
queue — the queue is still empty afterwards. -/
theorem metadata_abort_counterexample :
    (handle_recommend_command stManual0 10 none 1 none "d" true none 0).1 =
      Except.ok
        { finalCatalogType := "tech", recommendationType := "tech",
          advisories := [], recommendationId := 1 } ∧
    (handle_recommend_command stManual0 10 none 1 none "d" true none
        0).2.pending = [] := by
  with_unfolding_all decide

/-- Witness for the amended C7: a metadata failure aborts, a model
failure on the empty database routes bid 1 to the queue, and on a
manually classified row it leaves the queue unchanged. -/
theorem metadata_abort_witness :
    (handle_recommend_command stEmpty 10 none 1 none "d" false none 0).1 =
      Except.error AbortReason.metadataUnavailable ∧
    (handle_recommend_command stEmpty 10 none 1 none "d" true none
        0).2.pending.any (fun p => decide (p.bid = 1)) = true ∧
    (handle_recommend_command stManual0 10 none 1 none "d" true none
        0).2.pending = stManual0.pending :=
  ⟨(metadata_abort_spec stEmpty 10 none 1 none "d" false none 0).1.mpr rfl,
   (metadata_abort_spec stEmpty 10 none 1 none "d" true none 0).2.2.2.1
     rfl rfl (Or.inl rfl),
   (metadata_abort_spec stManual0 10 none 1 none "d" true none
     0).2.2.2.2 sampleManualRow rfl rfl rfl⟩

end OsuKonBot
